import Mathlib

/-!
# Event scheduler: overlap detection, validation and mutation contracts

A shallow embedding of `src/models/Event.js` (schema validators, `timeToMinutes`,
`checkOverlap`, the `pre('validate')` hook) and `src/controllers/events.js`
(`createEvent`, `updateEvent`, `deleteEvent`, `getEventsByDate`).

Conventions of the embedding.

* A JavaScript number that the time arithmetic produces is an `Option Nat`:
  `some n` is the natural number `n`, `none` is `NaN`.  `Number` is modelled on
  components made of decimal digits (the only ones the schema lets into the
  store); every other component is read as `NaN`.
* A `Date` is its timestamp in milliseconds (`Int`), read in a local zone with a
  fixed offset, so that a calendar day is a block of `86400000` ms.
* A `date` of a request is a `DateInput`: the empty string, a string that is not
  a date, a date string, or a JSON number; the other body fields are strings.
* The collection is a list of documents in natural (insertion) order, with a
  counter that supplies fresh `_id` values.
-/

namespace EventScheduler

/-! ## Strings and numbers -/

/-- Code unit test for an ASCII decimal digit. -/
def isDigitChar (c : Char) : Bool :=
  decide (48 ≤ c.toNat) && decide (c.toNat ≤ 57)

/-- Value of a decimal digit. -/
def digitVal (c : Char) : Nat := c.toNat - 48

/-- Value of a list of decimal digits, most significant first. -/
def decimalValue (cs : List Char) : Nat :=
  cs.foldl (fun acc c => acc * 10 + digitVal c) 0

/-- Model of `Number(str)` on a string component: digits give their value, the empty
string gives `0`, anything else is `NaN`.  The model is exact on the components
of the strings that the `match` pattern of the schema accepts.  Components that
`Number` reads as a number without being plain digits (white space around the
digits, a sign, a fraction, an exponent, a hex, octal or binary prefix,
`Infinity`) and digit strings above `2 ^ 53`, which `Number` rounds, are outside
the model; the pattern refuses every time string that has one. -/
def jsNumber (cs : List Char) : Option Nat :=
  if cs.all isDigitChar then some (decimalValue cs) else none

/-- Model of `str.split(':')`, on the characters of the string. -/
def splitColon : List Char → List (List Char)
  | [] => [[]]
  | c :: cs =>
    if c = ':' then [] :: splitColon cs
    else
      match splitColon cs with
      | [] => [[c]]
      | p :: ps => (c :: p) :: ps

/-- JavaScript `a < b` on numbers: false as soon as one side is `NaN`. -/
def jsLt : Option Nat → Option Nat → Bool
  | some a, some b => decide (a < b)
  | _, _ => false

/-- JavaScript `a <= b` on numbers: false as soon as one side is `NaN`. -/
def jsLe : Option Nat → Option Nat → Bool
  | some a, some b => decide (a ≤ b)
  | _, _ => false

/-- The sum `hours * 60 + minutes` after `const [hours, minutes] = parts.map(Number)`;
a missing second component is `undefined`, which makes the sum `NaN`. -/
def hoursTimes60PlusMinutes (parts : List (Option Nat)) : Option Nat :=
  match parts with
  | some hours :: some minutes :: _ => some (hours * 60 + minutes)
  | _ => none

/-- The static `EventSchema.statics.timeToMinutes`. -/
def timeToMinutes (timeStr : String) : Option Nat :=
  hoursTimes60PlusMinutes ((splitColon timeStr.data).map jsNumber)

/-! ## The time format regular expression -/

/-- Regular expressions, as far as the schema's `match` pattern needs them. -/
inductive Regex where
  | never : Regex
  | eps : Regex
  | range (lo hi : Char) : Regex
  | seq (a b : Regex) : Regex
  | alt (a b : Regex) : Regex
  | opt (a : Regex) : Regex

namespace Regex

/-- Whether the expression matches the empty string. -/
def nullable : Regex → Bool
  | never => false
  | eps => true
  | range _ _ => false
  | seq a b => nullable a && nullable b
  | alt a b => nullable a || nullable b
  | opt _ => true

/-- Brzozowski derivative by one character. -/
def deriv : Regex → Char → Regex
  | never, _ => never
  | eps, _ => never
  | range lo hi, c =>
    if lo.toNat ≤ c.toNat ∧ c.toNat ≤ hi.toNat then eps else never
  | seq a b, c =>
    if nullable a then alt (seq (deriv a c) b) (deriv b c) else seq (deriv a c) b
  | alt a b, c => alt (deriv a c) (deriv b c)
  | opt a, c => deriv a c

/-- Anchored match (`^...$` without the multiline flag). -/
def fullMatch (r : Regex) (cs : List Char) : Bool :=
  nullable (cs.foldl deriv r)

/-- Denotation of an expression: the set of strings it matches. -/
def Lang : Regex → List Char → Prop
  | never, _ => False
  | eps, cs => cs = []
  | range lo hi, cs => ∃ c, cs = [c] ∧ lo.toNat ≤ c.toNat ∧ c.toNat ≤ hi.toNat
  | seq a b, cs => ∃ x y, cs = x ++ y ∧ Lang a x ∧ Lang b y
  | alt a b, cs => Lang a cs ∨ Lang b cs
  | opt a, cs => cs = [] ∨ Lang a cs

end Regex

/-- The pattern `/^([01]?[0-9]|2[0-3]):[0-5][0-9]$/` of `startTime` and `endTime`. -/
def timePattern : Regex :=
  .seq
    (.alt (.seq (.opt (.range '0' '1')) (.range '0' '9'))
      (.seq (.range '2' '2') (.range '0' '3')))
    (.seq (.range ':' ':') (.seq (.range '0' '5') (.range '0' '9')))

/-- The call `regExp.test(v)` for the time pattern. -/
def timeRegexTest (v : String) : Bool := Regex.fullMatch timePattern v.data

/-- Mongoose `required` on a string path: the value is a non-empty string. -/
def checkRequiredString (v : String) : Bool := !(v.data.isEmpty)

/-- Mongoose `match` validator: `(v != null && v !== '') ? regExp.test(v) : true`. -/
def matchValidator (v : String) : Bool :=
  if v.data.isEmpty then true else timeRegexTest v

/-- Validation of a `startTime` / `endTime` value: `required` and `match`. -/
def validTimeField (v : String) : Bool := checkRequiredString v && matchValidator v

/-! ## Data model -/

/-- A stored event document (`EventSchema`); `createdAt` / `updatedAt` are not
part of the embedding. -/
structure Event where
  id : Nat
  title : String
  description : Option String
  date : Int
  startTime : String
  endTime : String
  createdBy : Nat
  deriving DecidableEq, Repr

/-- The events collection, in natural order, with the next fresh `_id`. -/
structure Store where
  events : List Event
  nextId : Nat
  deriving DecidableEq, Repr

/-- The empty collection. -/
def Store.empty : Store := ⟨[], 0⟩

/-- A `date` value as it arrives in a request body or query string. -/
inductive DateInput where
  /-- The empty string: falsy; cast to `null`, which `required` refuses. -/
  | empty : DateInput
  /-- A non-empty string that is not a date: `new Date(..)` is an invalid date. -/
  | invalid : DateInput
  /-- A non-empty string that denotes the instant `ms`. -/
  | valid (ms : Int) : DateInput
  /-- A JSON number (of milliseconds, in the range of a date): falsy when it is
  `0`; `new Date(ms)` and the cast of the store both give the instant `ms`. -/
  | number (ms : Int) : DateInput
  deriving DecidableEq, Repr

/-- The instant of `new Date(v)`, which is also the cast of `v` to the `Date` type
of the schema; `none` when the result is not a date. -/
def newDate : DateInput → Option Int
  | .empty => none
  | .invalid => none
  | .valid ms => some ms
  | .number ms => some ms

/-- The fields of `req.body` that the handlers read; `none` is an absent field. -/
structure Body where
  title : Option String
  description : Option String
  date : Option DateInput
  startTime : Option String
  endTime : Option String
  deriving DecidableEq, Repr

/-- Errors raised by the handlers.  `notFound id` carries the message
"No event with id ..."; `conflict e` carries the message built from the title and
times of the conflicting event; `castError` is the store refusing an invalid date;
`typeError` is reading a property of `undefined`. -/
inductive Err where
  | badRequest (msg : String) : Err
  | notFound (eventId : Nat) : Err
  | conflict (conflictingEvent : Event) : Err
  | validation : Err
  | castError : Err
  | typeError : Err
  deriving DecidableEq, Repr

deriving instance DecidableEq for Except

/-! ## Calendar days -/

/-- Milliseconds in a calendar day. -/
def msPerDay : Int := 86400000

/-- The call `d.setHours(h, m, s, ms)`: same calendar day, given time of day. -/
def setHours (date : Int) (h m s ms : Int) : Int :=
  (date - date % msPerDay) + (h * 3600000 + m * 60000 + s * 1000 + ms)

/-- The calendar day a timestamp falls on. -/
def calendarDay (date : Int) : Int := date / msPerDay

/-! ## Overlap checker -/

/-- Result object of `checkOverlap`. -/
structure OverlapResult where
  hasOverlap : Bool
  conflictingEvent : Option Event
  deriving DecidableEq, Repr

/-- The query `{ date: { $gte: startOfDay, $lte: endOfDay }, _id: { $ne: excludeEventId } }`,
the `_id` clause being present only when `excludeEventId` is given. -/
def findSameDay (s : Store) (startOfDay endOfDay : Int) (excludeEventId : Option Nat) :
    List Event :=
  s.events.filter fun e =>
    decide (startOfDay ≤ e.date) && decide (e.date ≤ endOfDay) &&
      (match excludeEventId with
       | none => true
       | some x => decide (e.id ≠ x))

/-- The `for (const event of eventsOnSameDay)` loop with its early return. -/
def overlapLoop (newStartMinutes newEndMinutes : Option Nat) : List Event → OverlapResult
  | [] => ⟨false, none⟩
  | event :: rest =>
    let existingStartMinutes := timeToMinutes event.startTime
    let existingEndMinutes := timeToMinutes event.endTime
    if jsLt newStartMinutes existingEndMinutes && jsLt existingStartMinutes newEndMinutes then
      ⟨true, some event⟩
    else overlapLoop newStartMinutes newEndMinutes rest

/-- The static `EventSchema.statics.checkOverlap`. -/
def checkOverlap (s : Store) (date : Int) (startTime endTime : String)
    (excludeEventId : Option Nat) : OverlapResult :=
  let startOfDay := setHours date 0 0 0 0
  let endOfDay := setHours date 23 59 59 999
  let eventsOnSameDay := findSameDay s startOfDay endOfDay excludeEventId
  let newStartMinutes := timeToMinutes startTime
  let newEndMinutes := timeToMinutes endTime
  overlapLoop newStartMinutes newEndMinutes eventsOnSameDay

/-! ## Schema validation -/

/-- ECMAScript white space and line terminators, as removed by `trim`. -/
def isJsWhitespace (c : Char) : Bool :=
  let n := c.toNat
  n = 0x09 || n = 0x0A || n = 0x0B || n = 0x0C || n = 0x0D || n = 0x20 || n = 0xA0 ||
    n = 0x1680 || (decide (0x2000 ≤ n) && decide (n ≤ 0x200A)) || n = 0x2028 || n = 0x2029 ||
    n = 0x202F || n = 0x205F || n = 0x3000 || n = 0xFEFF

/-- The method `String.prototype.trim`. -/
def jsTrim (v : String) : String :=
  ⟨((v.data.dropWhile isJsWhitespace).reverse.dropWhile isJsWhitespace).reverse⟩

/-- The property `v.length`: the number of UTF-16 code units. -/
def jsLength (v : String) : Nat :=
  (v.data.map fun c => if c.toNat < 0x10000 then 1 else 2).sum

/-- Validators of `title` on the trimmed value: `required` and `maxlength: 100`. -/
def validTitle (v : String) : Bool :=
  checkRequiredString v && decide (jsLength v ≤ 100)

/-- Validator of `description` on the trimmed value: `maxlength: 100`. -/
def validDescription (v : String) : Bool := decide (jsLength v ≤ 100)

/-- The `pre('validate')` hook: `true` when it does not invalidate `endTime`. -/
def preValidateHook (startTime endTime : String) : Bool :=
  if !startTime.data.isEmpty && !endTime.data.isEmpty then
    let startTotal := timeToMinutes startTime
    let endTotal := timeToMinutes endTime
    if jsLe endTotal startTotal then false else true
  else true

/-- Document validation run by `Event.create`: the hook and the path validators,
on the values after the `trim` setters. -/
def validateDocument (title : String) (description : Option String)
    (startTime endTime : String) : Bool :=
  preValidateHook startTime endTime &&
    validTitle (jsTrim title) &&
    (match description with
     | none => true
     | some d => validDescription (jsTrim d)) &&
    validTimeField startTime && validTimeField endTime

/-- Update validators run by `findOneAndUpdate` with `runValidators: true`: the
path validators of the paths present in the update.  The `pre('validate')` hook
is document middleware and is not run by a query. -/
def validateUpdate (body : Body) : Bool :=
  (match body.title with
   | none => true
   | some t => validTitle (jsTrim t)) &&
  (match body.description with
   | none => true
   | some d => validDescription (jsTrim d)) &&
  (match body.date with
   | none => true
   | some d => (newDate d).isSome) &&
  (match body.startTime with
   | none => true
   | some t => validTimeField t) &&
  (match body.endTime with
   | none => true
   | some t => validTimeField t)

/-- The document after `$set` of the fields present in the update. -/
def applyUpdate (e : Event) (body : Body) : Event :=
  { e with
    title := match body.title with
      | none => e.title
      | some t => jsTrim t
    description := match body.description with
      | none => e.description
      | some d => some (jsTrim d)
    date := match body.date.bind newDate with
      | some ms => ms
      | none => e.date
    startTime := body.startTime.getD e.startTime
    endTime := body.endTime.getD e.endTime }

/-! ## Handlers -/

/-- JavaScript truthiness of a string field of the body. -/
def truthyString : Option String → Bool
  | none => false
  | some v => !v.data.isEmpty

/-- JavaScript truthiness of the date field of the body. -/
def truthyDate : Option DateInput → Bool
  | none => false
  | some .empty => false
  | some (.number ms) => decide (ms ≠ 0)
  | some _ => true

/-- The expression `v || fallback` for a string field of the body. -/
def orElseString (v : Option String) (fallback : String) : String :=
  if truthyString v then v.getD fallback else fallback

/-- The expression `date || existingEvent.date`. -/
def orElseDate (v : Option DateInput) (fallback : Int) : DateInput :=
  if truthyDate v then v.getD (.valid fallback) else .valid fallback

/-- Replace the first document that satisfies `p`. -/
def replaceFirst (p : Event → Bool) (f : Event → Event) : List Event → List Event
  | [] => []
  | e :: rest => if p e then f e :: rest else e :: replaceFirst p f rest

/-- The filter `{ _id: eventId, createdBy: userId }`. -/
def ownedBy (eventId userId : Nat) (e : Event) : Bool :=
  decide (e.id = eventId) && decide (e.createdBy = userId)

/-- The call `Event.create(req.body)` once `createdBy` is set: validate, then insert with a
fresh `_id`. -/
def createDocument (s : Store) (title : String) (description : Option String) (date : Int)
    (startTime endTime : String) (createdBy : Nat) : Store × Except Err Event :=
  if validateDocument title description startTime endTime then
    let event : Event :=
      { id := s.nextId, title := jsTrim title, description := description.map jsTrim,
        date := date, startTime := startTime, endTime := endTime, createdBy := createdBy }
    (⟨s.events ++ [event], s.nextId + 1⟩, .ok event)
  else (s, .error .validation)

/-- The call `Event.findOneAndUpdate(filter, req.body, { new: true, runValidators: true })`. -/
def findOneAndUpdate (s : Store) (p : Event → Bool) (body : Body) :
    Store × Except Err (Option Event) :=
  if validateUpdate body then
    (⟨replaceFirst p (fun e => applyUpdate e body) s.events, s.nextId⟩,
      .ok ((s.events.find? p).map fun e => applyUpdate e body))
  else (s, .error .validation)

/-- The call `Event.findOneAndDelete(filter)`. -/
def findOneAndDelete (s : Store) (p : Event → Bool) : Store × Option Event :=
  (⟨s.events.eraseP p, s.nextId⟩, s.events.find? p)

/-- The handler `createEvent`. -/
def createEvent (s : Store) (userId : Nat) (body : Body) : Store × Except Err Event :=
  if !truthyString body.title || !truthyDate body.date || !truthyString body.startTime ||
      !truthyString body.endTime then
    (s, .error (.badRequest "Please provide title, date, startTime, and endTime"))
  else
    let title := body.title.getD ""
    let startTime := body.startTime.getD ""
    let endTime := body.endTime.getD ""
    match body.date.bind newDate with
    | some date =>
      let r := checkOverlap s date startTime endTime none
      if r.hasOverlap then
        match r.conflictingEvent with
        | some conflictingEvent => (s, .error (.conflict conflictingEvent))
        | none => (s, .error .typeError)
      else createDocument s title body.description date startTime endTime userId
    | none => (s, .error .castError)

/-- The handler `updateEvent`. -/
def updateEvent (s : Store) (userId eventId : Nat) (body : Body) :
    Store × Except Err (Option Event) :=
  if body.title = some "" then
    (s, .error (.badRequest "Title field cannot be empty"))
  else
    match s.events.find? (ownedBy eventId userId) with
    | none => (s, .error (.notFound eventId))
    | some existingEvent =>
      let checkDate := orElseDate body.date existingEvent.date
      let checkStartTime := orElseString body.startTime existingEvent.startTime
      let checkEndTime := orElseString body.endTime existingEvent.endTime
      match newDate checkDate with
      | some date =>
        let r := checkOverlap s date checkStartTime checkEndTime (some eventId)
        if r.hasOverlap then
          match r.conflictingEvent with
          | some conflictingEvent => (s, .error (.conflict conflictingEvent))
          | none => (s, .error .typeError)
        else findOneAndUpdate s (ownedBy eventId userId) body
      | none => (s, .error .castError)

/-- The handler `deleteEvent`. -/
def deleteEvent (s : Store) (userId eventId : Nat) : Store × Except Err Unit :=
  match findOneAndDelete s (ownedBy eventId userId) with
  | (_, none) => (s, .error (.notFound eventId))
  | (s1, some _) => (s1, .ok ())

/-! ## Listing -/

/-- Simple binary comparison of two strings, as the store orders string fields. -/
def lexLe : List Char → List Char → Bool
  | [], _ => true
  | _ :: _, [] => false
  | a :: as, b :: bs => decide (a.toNat < b.toNat) || (decide (a.toNat = b.toNat) && lexLe as bs)

/-- The order of `.sort({ date: 1, startTime: 1 })`. -/
def sortKeyLe (a b : Event) : Prop :=
  a.date < b.date ∨ (a.date = b.date ∧ lexLe a.startTime.data b.startTime.data = true)

instance : DecidableRel sortKeyLe := fun a b => by
  unfold sortKeyLe
  exact inferInstance

/-- The handler `getEventsByDate`: the optional day window, then the sort.  The `populate`
step only decorates `createdBy` and is left out. -/
def getEventsByDate (s : Store) (date : Option DateInput) : Except Err (List Event) :=
  if truthyDate date then
    match date.bind newDate with
    | some queryDate =>
      let startOfDay := setHours queryDate 0 0 0 0
      let endOfDay := setHours queryDate 23 59 59 999
      .ok ((findSameDay s startOfDay endOfDay none).insertionSort sortKeyLe)
    | none => .error .castError
  else .ok (s.events.insertionSort sortKeyLe)

/-! ## Request sequences -/

/-- A mutating request with its authenticated caller. -/
inductive Request where
  | create (userId : Nat) (body : Body) : Request
  | update (userId eventId : Nat) (body : Body) : Request
  | delete (userId eventId : Nat) : Request

/-- The store after one request. -/
def step (s : Store) : Request → Store
  | .create userId body => (createEvent s userId body).1
  | .update userId eventId body => (updateEvent s userId eventId body).1
  | .delete userId eventId => (deleteEvent s userId eventId).1

/-- An update whose body carries the number `0` as its `date`. -/
def ZeroDateUpdate : Request → Prop
  | .update _ _ body => body.date = some (.number 0)
  | _ => False

instance : DecidablePred ZeroDateUpdate := fun r => by
  cases r <;> simp only [ZeroDateUpdate] <;> exact inferInstance

/-- The store after a sequence of requests executed one after another. -/
def run (s : Store) (reqs : List Request) : Store := reqs.foldl step s

/-! ## Properties named by the specification, and sample stores -/

/-- The accepted time format in the words of the specification: an hour written
with one or two decimal digits, of value at most 23, then a colon, then a minute
written with exactly two decimal digits, of value at most 59. -/
def IsTimeFormat (s : String) : Prop :=
  ∃ hour minute : List Char,
    s.data = hour ++ ':' :: minute ∧
    (hour.length = 1 ∨ hour.length = 2) ∧
    (∀ c ∈ hour, isDigitChar c = true) ∧ decimalValue hour ≤ 23 ∧
    minute.length = 2 ∧
    (∀ c ∈ minute, isDigitChar c = true) ∧ decimalValue minute ≤ 59

/-- The string `s` writes hour `h` and minute `m`: decimal digits of value `h`,
a colon, decimal digits of value `m`. -/
def Writes (s : String) (h m : Nat) : Prop :=
  ∃ hour minute : List Char,
    s.data = hour ++ ':' :: minute ∧
    (∀ c ∈ hour, isDigitChar c = true) ∧ decimalValue hour = h ∧
    (∀ c ∈ minute, isDigitChar c = true) ∧ decimalValue minute = m

/-- The comparison of the proposed interval with a stored event:
`newStart < existingEnd && existingStart < newEnd`. -/
def proposedOverlaps (startTime endTime : String) (e : Event) : Bool :=
  jsLt (timeToMinutes startTime) (timeToMinutes e.endTime) &&
    jsLt (timeToMinutes e.startTime) (timeToMinutes endTime)

/-- The candidates named by the specification: the stored events, in store order,
whose date falls on the calendar day of `date`, whatever their owner, and whose
id differs from `excludeEventId` when one is given. -/
def sameDayCandidates (s : Store) (date : Int) (excludeEventId : Option Nat) : List Event :=
  s.events.filter fun e =>
    decide (calendarDay e.date = calendarDay date) &&
      (match excludeEventId with
       | none => true
       | some x => decide (e.id ≠ x))

/-- First-match search over a list of candidates. -/
def firstMatch (startTime endTime : String) (candidates : List Event) : OverlapResult :=
  match candidates.find? (proposedOverlaps startTime endTime) with
  | some e => ⟨true, some e⟩
  | none => ⟨false, none⟩

/-- Two events overlap: both half-open overlap comparisons hold, in minutes. -/
def overlaps (a b : Event) : Bool :=
  jsLt (timeToMinutes a.startTime) (timeToMinutes b.endTime) &&
    jsLt (timeToMinutes b.startTime) (timeToMinutes a.endTime)

/-- No two distinct events of the same calendar day overlap. -/
def NoOverlap (s : Store) : Prop :=
  ∀ a ∈ s.events, ∀ b ∈ s.events, a.id ≠ b.id → calendarDay a.date = calendarDay b.date →
    overlaps a b = false

/-- The `_id` index: no two stored documents share an id. -/
def UniqueIds (s : Store) : Prop := (s.events.map Event.id).Nodup

/-- Both time fields of a stored event pass the schema validators. -/
def ValidTimes (e : Event) : Prop :=
  validTimeField e.startTime = true ∧ validTimeField e.endTime = true

/-- Invariant of the store along request sequences. -/
def Inv (s : Store) : Prop :=
  UniqueIds s ∧ (∀ e ∈ s.events, e.id < s.nextId) ∧ (∀ e ∈ s.events, ValidTimes e) ∧ NoOverlap s

/-- Chronological order of two events: earlier date, or same date and start
minutes not later. -/
def chronLe (a b : Event) : Prop :=
  a.date < b.date ∨
    (a.date = b.date ∧ jsLe (timeToMinutes a.startTime) (timeToMinutes b.startTime) = true)

/-- A list ordered by date ascending and, for equal dates, by start minutes
ascending. -/
def Chronological (l : List Event) : Prop := l.Pairwise chronLe

/-- The start time is written with a two-digit hour: an accepted time of five
characters. -/
def PaddedStart (e : Event) : Prop :=
  validTimeField e.startTime = true ∧ e.startTime.data.length = 5

/-- An event that ends at 10:00 and one that starts at 12:00, on day 0. -/
def touchingStore : Store :=
  ⟨[⟨0, "Morning", none, 0, "09:00", "10:00", 1⟩, ⟨1, "Lunch", none, 3600000, "12:00", "13:00", 2⟩], 2⟩

/-- A store with one event, 09:00 to 10:00, owned by user 1. -/
def singleEventStore : Store := ⟨[⟨0, "Standup", none, 0, "09:00", "10:00", 1⟩], 1⟩

/-- Three creates on one day: the second overlaps the first and is refused. -/
def scenarioRequests : List Request :=
  [.create 7 ⟨some "Standup", none, some (.valid 0), some "09:00", some "09:15"⟩,
   .create 8 ⟨some "Sync", none, some (.valid 0), some "09:10", some "09:30"⟩,
   .create 8 ⟨some "Review", none, some (.valid 0), some "09:15", some "09:30"⟩]

/-- Two creates on different days, then an update of the second event with the
number `0` as `date`. -/
def zeroDateRequests : List Request :=
  [.create 1 ⟨some "Morning", none, some (.valid 0), some "09:00", some "10:00"⟩,
   .create 2 ⟨some "Late morning", none, some (.valid 86400000), some "09:30", some "10:30"⟩,
   .update 2 1 ⟨none, none, some (.number 0), none, none⟩]

/-- Two events of one date, stored with the hours `9` and `10`. -/
def unpaddedStore : Store :=
  run Store.empty
    [.create 1 ⟨some "Early", none, some (.valid 0), some "9:00", some "9:30"⟩,
     .create 1 ⟨some "Late", none, some (.valid 0), some "10:00", some "11:00"⟩]

/-! ## Regular expression matching -/

namespace Regex

theorem nullable_iff (r : Regex) : nullable r = true ↔ Lang r [] := by
  induction r with
  | never => simp [nullable, Lang]
  | eps => simp [nullable, Lang]
  | range lo hi => simp [nullable, Lang]
  | seq a b iha ihb =>
    simp only [nullable, Lang, Bool.and_eq_true, iha, ihb]
    constructor
    · rintro ⟨ha, hb⟩
      exact ⟨[], [], rfl, ha, hb⟩
    · rintro ⟨x, y, hxy, ha, hb⟩
      have hx : x = [] := (List.append_eq_nil.mp hxy.symm).1
      have hy : y = [] := (List.append_eq_nil.mp hxy.symm).2
      subst hx; subst hy
      exact ⟨ha, hb⟩
  | alt a b iha ihb => simp only [nullable, Lang, Bool.or_eq_true, iha, ihb]
  | opt a _ => simp [nullable, Lang]

theorem deriv_iff (r : Regex) (c : Char) (cs : List Char) :
    Lang (deriv r c) cs ↔ Lang r (c :: cs) := by
  induction r generalizing cs with
  | never => simp [deriv, Lang]
  | eps => simp [deriv, Lang]
  | range lo hi =>
    simp only [deriv, Lang]
    constructor
    · intro h
      split at h
      · rename_i hc
        simp only [Lang] at h
        subst h
        exact ⟨c, rfl, hc.1, hc.2⟩
      · simp [Lang] at h
    · rintro ⟨d, hd, h1, h2⟩
      simp only [List.cons.injEq] at hd
      obtain ⟨rfl, rfl⟩ := hd
      rw [if_pos ⟨h1, h2⟩]
      simp [Lang]
  | seq a b iha ihb =>
    have key : Lang (seq a b) (c :: cs) ↔
        (Lang (seq (deriv a c) b) cs ∨ (Lang a [] ∧ Lang (deriv b c) cs)) := by
      simp only [Lang, iha, ihb]
      constructor
      · rintro ⟨x, y, hxy, ha, hb⟩
        cases x with
        | nil =>
          simp only [List.nil_append] at hxy
          subst hxy
          exact Or.inr ⟨ha, hb⟩
        | cons d x =>
          simp only [List.cons_append, List.cons.injEq] at hxy
          obtain ⟨rfl, rfl⟩ := hxy
          exact Or.inl ⟨x, y, rfl, ha, hb⟩
      · rintro (⟨x, y, rfl, ha, hb⟩ | ⟨ha, hb⟩)
        · exact ⟨c :: x, y, rfl, ha, hb⟩
        · exact ⟨[], c :: cs, rfl, ha, hb⟩
    rw [key]
    simp only [deriv]
    by_cases hn : nullable a = true
    · rw [if_pos hn]
      have hn2 := (nullable_iff a).mp hn
      simp only [Lang, hn2, true_and]
    · rw [if_neg hn]
      have hn2 : ¬ Lang a [] := fun h => hn ((nullable_iff a).mpr h)
      simp only [Lang, hn2, false_and, or_false]
  | alt a b iha ihb => simp only [deriv, Lang, iha, ihb]
  | opt a iha => simp [deriv, Lang, iha]

theorem fullMatch_iff (r : Regex) (cs : List Char) : fullMatch r cs = true ↔ Lang r cs := by
  induction cs generalizing r with
  | nil => exact nullable_iff r
  | cons c cs ih =>
    have h := ih (deriv r c)
    simp only [fullMatch, List.foldl_cons] at h ⊢
    rw [h, deriv_iff]

end Regex

/-! ## Time format and minutes since midnight -/

theorem char_eq_of_toNat_eq {a b : Char} (h : a.toNat = b.toNat) : a = b := by
  apply Char.ext
  apply UInt32.ext
  exact h

theorem isDigitChar_iff (c : Char) : isDigitChar c = true ↔ 48 ≤ c.toNat ∧ c.toNat ≤ 57 := by
  simp [isDigitChar]

theorem lang_timePattern_iff (cs : List Char) :
    Regex.Lang timePattern cs ↔
      (∃ h m1 m2 : Char, cs = [h, ':', m1, m2] ∧ 48 ≤ h.toNat ∧ h.toNat ≤ 57 ∧
        48 ≤ m1.toNat ∧ m1.toNat ≤ 53 ∧ 48 ≤ m2.toNat ∧ m2.toNat ≤ 57) ∨
      (∃ h1 h2 m1 m2 : Char, cs = [h1, h2, ':', m1, m2] ∧
        ((48 ≤ h1.toNat ∧ h1.toNat ≤ 49 ∧ 48 ≤ h2.toNat ∧ h2.toNat ≤ 57) ∨
          (h1.toNat = 50 ∧ 48 ≤ h2.toNat ∧ h2.toNat ≤ 51)) ∧
        48 ≤ m1.toNat ∧ m1.toNat ≤ 53 ∧ 48 ≤ m2.toNat ∧ m2.toNat ≤ 57) := by
  have e0 : ('0' : Char).toNat = 48 := rfl
  have e1 : ('1' : Char).toNat = 49 := rfl
  have e2 : ('2' : Char).toNat = 50 := rfl
  have e3 : ('3' : Char).toNat = 51 := rfl
  have e5 : ('5' : Char).toNat = 53 := rfl
  have e9 : ('9' : Char).toNat = 57 := rfl
  have ec : (':' : Char).toNat = 58 := rfl
  simp only [timePattern, Regex.Lang, e0, e1, e2, e3, e5, e9, ec]
  constructor
  · rintro ⟨x, y, rfl, hx, x2, y2, rfl, ⟨e, rfl, he1, he2⟩, x3, y3, rfl,
      ⟨f, rfl, hf1, hf2⟩, ⟨g, rfl, hg1, hg2⟩⟩
    have hec : e = ':' := char_eq_of_toNat_eq (by rw [ec]; omega)
    subst hec
    rcases hx with ⟨x1, y1, rfl, (rfl | ⟨c, rfl, hc1, hc2⟩), ⟨d, rfl, hd1, hd2⟩⟩ |
      ⟨x1, y1, rfl, ⟨c, rfl, hc1, hc2⟩, ⟨d, rfl, hd1, hd2⟩⟩
    · exact Or.inl ⟨d, f, g, rfl, hd1, hd2, hf1, hf2, hg1, hg2⟩
    · exact Or.inr ⟨c, d, f, g, rfl, Or.inl ⟨hc1, hc2, hd1, hd2⟩, hf1, hf2, hg1, hg2⟩
    · exact Or.inr ⟨c, d, f, g, rfl, Or.inr ⟨by omega, hd1, hd2⟩, hf1, hf2, hg1, hg2⟩
  · rintro (⟨h, m1, m2, rfl, hh1, hh2, hf1, hf2, hg1, hg2⟩ |
      ⟨h1, h2, m1, m2, rfl, hh, hf1, hf2, hg1, hg2⟩)
    · exact ⟨[h], [':', m1, m2], rfl, Or.inl ⟨[], [h], rfl, Or.inl rfl, h, rfl, hh1, hh2⟩,
        [':'], [m1, m2], rfl, ⟨':', rfl, by rw [ec], by rw [ec]⟩, [m1], [m2], rfl,
        ⟨m1, rfl, hf1, hf2⟩, ⟨m2, rfl, hg1, hg2⟩⟩
    · refine ⟨[h1, h2], [':', m1, m2], rfl, ?_,
        [':'], [m1, m2], rfl, ⟨':', rfl, by rw [ec], by rw [ec]⟩, [m1], [m2], rfl,
        ⟨m1, rfl, hf1, hf2⟩, ⟨m2, rfl, hg1, hg2⟩⟩
      rcases hh with ⟨a1, a2, a3, a4⟩ | ⟨a1, a2, a3⟩
      · exact Or.inl ⟨[h1], [h2], rfl, Or.inr ⟨h1, rfl, a1, a2⟩, h2, rfl, a3, a4⟩
      · exact Or.inr ⟨[h1], [h2], rfl, ⟨h1, rfl, by omega, by omega⟩, h2, rfl, a2, a3⟩

theorem isTimeFormat_iff (s : String) :
    IsTimeFormat s ↔
      (∃ h m1 m2 : Char, s.data = [h, ':', m1, m2] ∧ 48 ≤ h.toNat ∧ h.toNat ≤ 57 ∧
        48 ≤ m1.toNat ∧ m1.toNat ≤ 53 ∧ 48 ≤ m2.toNat ∧ m2.toNat ≤ 57) ∨
      (∃ h1 h2 m1 m2 : Char, s.data = [h1, h2, ':', m1, m2] ∧
        ((48 ≤ h1.toNat ∧ h1.toNat ≤ 49 ∧ 48 ≤ h2.toNat ∧ h2.toNat ≤ 57) ∨
          (h1.toNat = 50 ∧ 48 ≤ h2.toNat ∧ h2.toNat ≤ 51)) ∧
        48 ≤ m1.toNat ∧ m1.toNat ≤ 53 ∧ 48 ≤ m2.toNat ∧ m2.toNat ≤ 57) := by
  constructor
  · rintro ⟨hour, minute, hdata, hlen, hdig, hval, mlen, mdig, mval⟩
    obtain ⟨m1, m2, rfl⟩ := List.length_eq_two.mp mlen
    have hm1 := (isDigitChar_iff m1).mp (mdig m1 (by simp))
    have hm2 := (isDigitChar_iff m2).mp (mdig m2 (by simp))
    simp only [decimalValue, digitVal, List.foldl_cons, List.foldl_nil] at mval
    rcases hlen with hlen | hlen
    · obtain ⟨h, rfl⟩ := List.length_eq_one.mp hlen
      have hh := (isDigitChar_iff h).mp (hdig h (by simp))
      exact Or.inl ⟨h, m1, m2, by simpa using hdata, hh.1, hh.2, hm1.1, by omega, hm2.1, hm2.2⟩
    · obtain ⟨h1, h2, rfl⟩ := List.length_eq_two.mp hlen
      have hh1 := (isDigitChar_iff h1).mp (hdig h1 (by simp))
      have hh2 := (isDigitChar_iff h2).mp (hdig h2 (by simp))
      simp only [decimalValue, digitVal, List.foldl_cons, List.foldl_nil] at hval
      refine Or.inr ⟨h1, h2, m1, m2, by simpa using hdata, ?_, hm1.1, by omega, hm2.1, hm2.2⟩
      by_cases hc : h1.toNat ≤ 49
      · exact Or.inl ⟨hh1.1, hc, hh2.1, hh2.2⟩
      · exact Or.inr ⟨by omega, hh2.1, by omega⟩
  · rintro (⟨h, m1, m2, hdata, hh1, hh2, hf1, hf2, hg1, hg2⟩ |
      ⟨h1, h2, m1, m2, hdata, hh, hf1, hf2, hg1, hg2⟩)
    · refine ⟨[h], [m1, m2], by simpa using hdata, Or.inl rfl, ?_, ?_, rfl, ?_, ?_⟩
      · intro c hc
        simp only [List.mem_singleton] at hc
        subst hc
        exact (isDigitChar_iff c).mpr ⟨hh1, hh2⟩
      · simp only [decimalValue, digitVal, List.foldl_cons, List.foldl_nil]
        omega
      · intro c hc
        simp only [List.mem_cons, List.mem_singleton, List.not_mem_nil, or_false] at hc
        rcases hc with rfl | rfl
        · exact (isDigitChar_iff _).mpr ⟨hf1, by omega⟩
        · exact (isDigitChar_iff _).mpr ⟨hg1, hg2⟩
      · simp only [decimalValue, digitVal, List.foldl_cons, List.foldl_nil]
        omega
    · refine ⟨[h1, h2], [m1, m2], by simpa using hdata, Or.inr rfl, ?_, ?_, rfl, ?_, ?_⟩
      · intro c hc
        simp only [List.mem_cons, List.mem_singleton, List.not_mem_nil, or_false] at hc
        rcases hc with rfl | rfl
        · exact (isDigitChar_iff _).mpr (by omega)
        · exact (isDigitChar_iff _).mpr (by omega)
      · simp only [decimalValue, digitVal, List.foldl_cons, List.foldl_nil]
        omega
      · intro c hc
        simp only [List.mem_cons, List.mem_singleton, List.not_mem_nil, or_false] at hc
        rcases hc with rfl | rfl
        · exact (isDigitChar_iff _).mpr ⟨hf1, by omega⟩
        · exact (isDigitChar_iff _).mpr ⟨hg1, hg2⟩
      · simp only [decimalValue, digitVal, List.foldl_cons, List.foldl_nil]
        omega

theorem timeRegexTest_iff (s : String) : timeRegexTest s = true ↔ IsTimeFormat s := by
  rw [timeRegexTest, Regex.fullMatch_iff, lang_timePattern_iff, isTimeFormat_iff]

theorem validTimeField_eq (s : String) : validTimeField s = timeRegexTest s := by
  unfold validTimeField checkRequiredString matchValidator
  cases h : s.data with
  | nil => simp [timeRegexTest, h, Regex.fullMatch, timePattern, Regex.nullable]
  | cons c cs => simp

/-- C9: the time-format validator of `startTime` and `endTime` (the pattern, and
the pattern together with `required`) accepts a string exactly when it is an hour
of one or two decimal digits with value 0..23, a colon, and a minute of exactly
two decimal digits with value 0..59; "24:00", "12:60", "7:5", "0930" and the empty
string are rejected. -/
theorem time_format_validator_accepts_iff :
    (∀ s : String, timeRegexTest s = true ↔ IsTimeFormat s) ∧
    (∀ s : String, validTimeField s = true ↔ IsTimeFormat s) ∧
    validTimeField "24:00" = false ∧ validTimeField "12:60" = false ∧
    validTimeField "7:5" = false ∧ validTimeField "0930" = false ∧
    validTimeField "" = false := by
  refine ⟨timeRegexTest_iff, fun s => ?_, by decide, by decide, by decide, by decide, by decide⟩
  rw [validTimeField_eq, timeRegexTest_iff]

theorem ne_colon_of_isDigitChar {c : Char} (h : isDigitChar c = true) : c ≠ ':' := by
  intro hc
  subst hc
  exact absurd h (by decide)

theorem splitColon_digits (cs : List Char) (h : ∀ c ∈ cs, isDigitChar c = true) :
    splitColon cs = [cs] := by
  induction cs with
  | nil => rfl
  | cons c cs ih =>
    have hc : c ≠ ':' := ne_colon_of_isDigitChar (h c (by simp))
    have ih2 := ih (fun d hd => h d (by simp [hd]))
    simp [splitColon, hc, ih2]

theorem splitColon_append (hour rest : List Char) (h : ∀ c ∈ hour, isDigitChar c = true) :
    splitColon (hour ++ ':' :: rest) = hour :: splitColon rest := by
  induction hour with
  | nil => simp [splitColon]
  | cons c cs ih =>
    have hc : c ≠ ':' := ne_colon_of_isDigitChar (h c (by simp))
    have ih2 := ih (fun d hd => h d (by simp [hd]))
    simp [splitColon, hc, ih2]

theorem jsNumber_digits (cs : List Char) (h : ∀ c ∈ cs, isDigitChar c = true) :
    jsNumber cs = some (decimalValue cs) := by
  have hall : cs.all isDigitChar = true := List.all_eq_true.mpr h
  simp [jsNumber, hall]

theorem timeToMinutes_of_writes {s : String} {h m : Nat} (hw : Writes s h m) :
    timeToMinutes s = some (h * 60 + m) := by
  obtain ⟨hour, minute, hdata, hd, hv, md, mv⟩ := hw
  unfold timeToMinutes
  rw [hdata, splitColon_append hour minute hd, splitColon_digits minute md]
  simp only [List.map_cons, List.map_nil, jsNumber_digits hour hd, jsNumber_digits minute md,
    hoursTimes60PlusMinutes, hv, mv]

theorem writes_of_isTimeFormat {s : String} (h : IsTimeFormat s) :
    ∃ hh mm : Nat, hh ≤ 23 ∧ mm ≤ 59 ∧ Writes s hh mm := by
  obtain ⟨hour, minute, hdata, _, hd, hv, _, md, mv⟩ := h
  exact ⟨decimalValue hour, decimalValue minute, hv, mv, hour, minute, hdata, hd, rfl, md, rfl⟩

/-- C10: for every hour `h` in 0..23, minute `m` in 0..59 and every string that
writes them as digits, colon, digits (in particular the accepted "H:MM" and
"HH:MM" forms), `timeToMinutes` returns `h * 60 + m`, which is at most 1439; any
two renderings of the same time (zero padded or not) give the same result. -/
theorem timeToMinutes_minutes_since_midnight (s : String) (h m : Nat)
    (hh : h ≤ 23) (hm : m ≤ 59) (hw : Writes s h m) :
    timeToMinutes s = some (h * 60 + m) ∧ h * 60 + m ≤ 1439 ∧
      ∀ t : String, Writes t h m → timeToMinutes t = timeToMinutes s := by
  refine ⟨timeToMinutes_of_writes hw, by omega, fun t ht => ?_⟩
  rw [timeToMinutes_of_writes hw, timeToMinutes_of_writes ht]

theorem timeToMinutes_minutes_since_midnight_witness :
    (validTimeField "9:05" = true ∧ validTimeField "09:05" = true) ∧
      Writes "9:05" 9 5 ∧ Writes "09:05" 9 5 ∧
      timeToMinutes "9:05" = some 545 ∧ timeToMinutes "09:05" = timeToMinutes "9:05" :=
  have w1 : Writes "9:05" 9 5 := ⟨['9'], ['0', '5'], rfl, by decide, by decide, by decide, by decide⟩
  have w2 : Writes "09:05" 9 5 :=
    ⟨['0', '9'], ['0', '5'], rfl, by decide, by decide, by decide, by decide⟩
  have key := timeToMinutes_minutes_since_midnight "9:05" 9 5 (by decide) (by decide) w1
  ⟨⟨by decide, by decide⟩, w1, w2, key.1, key.2.2 "09:05" w2⟩

/-! ## Overlap checker -/

theorem day_window_iff (date x : Int) :
    (setHours date 0 0 0 0 ≤ x ∧ x ≤ setHours date 23 59 59 999) ↔
      calendarDay x = calendarDay date := by
  simp only [setHours, calendarDay, msPerDay]
  omega

theorem findSameDay_eq_sameDayCandidates (s : Store) (date : Int) (ex : Option Nat) :
    findSameDay s (setHours date 0 0 0 0) (setHours date 23 59 59 999) ex =
      sameDayCandidates s date ex := by
  unfold findSameDay sameDayCandidates
  apply List.filter_congr
  intro e _
  have h := day_window_iff date e.date
  by_cases hd : calendarDay e.date = calendarDay date
  · have h2 := h.mpr hd
    simp [hd, h2.1, h2.2]
  · have h2 : ¬ (setHours date 0 0 0 0 ≤ e.date ∧ e.date ≤ setHours date 23 59 59 999) :=
      fun hw => hd (h.mp hw)
    by_cases h3 : setHours date 0 0 0 0 ≤ e.date
    · have h4 : ¬ e.date ≤ setHours date 23 59 59 999 := fun h4 => h2 ⟨h3, h4⟩
      simp [hd, h3, h4]
    · simp [hd, h3]

theorem overlapLoop_eq_firstMatch (startTime endTime : String) (l : List Event) :
    overlapLoop (timeToMinutes startTime) (timeToMinutes endTime) l =
      firstMatch startTime endTime l := by
  induction l with
  | nil => rfl
  | cons e rest ih =>
    unfold overlapLoop firstMatch
    by_cases h : proposedOverlaps startTime endTime e = true
    · have h2 := h
      unfold proposedOverlaps at h2
      simp [List.find?, h, h2]
    · have h2 := h
      unfold proposedOverlaps at h2
      simp only [Bool.not_eq_true] at h h2
      simp only [h2, List.find?, h, ih, firstMatch]
      simp

theorem checkOverlap_eq (s : Store) (date : Int) (startTime endTime : String)
    (ex : Option Nat) :
    checkOverlap s date startTime endTime ex =
      firstMatch startTime endTime (sameDayCandidates s date ex) := by
  unfold checkOverlap
  simp only [findSameDay_eq_sameDayCandidates, overlapLoop_eq_firstMatch]

theorem mem_sameDayCandidates {s : Store} {date : Int} {ex : Option Nat} {e : Event} :
    e ∈ sameDayCandidates s date ex ↔
      e ∈ s.events ∧ calendarDay e.date = calendarDay date ∧ ∀ x, ex = some x → e.id ≠ x := by
  unfold sameDayCandidates
  cases ex with
  | none => simp
  | some x => simp

theorem firstMatch_false_of_forall {startTime endTime : String} {l : List Event}
    (h : ∀ e ∈ l, proposedOverlaps startTime endTime e = false) :
    firstMatch startTime endTime l = ⟨false, none⟩ := by
  unfold firstMatch
  have hnone : l.find? (proposedOverlaps startTime endTime) = none := by
    rw [List.find?_eq_none]
    intro e he
    simp [h e he]
  rw [hnone]

theorem jsLt_irrefl (a : Option Nat) : jsLt a a = false := by
  cases a with
  | none => rfl
  | some n => simp [jsLt]

/-- C1: `checkOverlap` is a first-match search.  With `C` the stored events, in
store order, whose date falls on the calendar day of `date` (whatever their
owner) and whose id differs from `excludeEventId` when one is given: if some
event of `C` satisfies `newStart < existingEnd` and `existingStart < newEnd`, the
result is `hasOverlap = true` with the first such event of `C` as
`conflictingEvent`; otherwise it is `hasOverlap = false` with no
`conflictingEvent`. -/
theorem checkOverlap_first_match (s : Store) (date : Int) (startTime endTime : String)
    (excludeEventId : Option Nat) :
    checkOverlap s date startTime endTime excludeEventId =
      match (sameDayCandidates s date excludeEventId).find?
          (proposedOverlaps startTime endTime) with
      | some e => ⟨true, some e⟩
      | none => ⟨false, none⟩ := by
  rw [checkOverlap_eq]
  rfl

/-- C3: touching intervals do not conflict.  If every same-day candidate either
ends exactly at the proposed start or starts exactly at the proposed end (in
minutes), `checkOverlap` returns `hasOverlap = false` and no conflicting event. -/
theorem checkOverlap_touching (s : Store) (date : Int) (startTime endTime : String)
    (excludeEventId : Option Nat)
    (h : ∀ e ∈ sameDayCandidates s date excludeEventId,
      timeToMinutes e.endTime = timeToMinutes startTime ∨
        timeToMinutes e.startTime = timeToMinutes endTime) :
    checkOverlap s date startTime endTime excludeEventId = ⟨false, none⟩ := by
  rw [checkOverlap_eq]
  apply firstMatch_false_of_forall
  intro e he
  unfold proposedOverlaps
  rcases h e he with h1 | h1
  · rw [h1, jsLt_irrefl, Bool.false_and]
  · rw [h1, jsLt_irrefl, Bool.and_false]

theorem checkOverlap_touching_witness :
    (∀ e ∈ sameDayCandidates touchingStore 0 none,
      timeToMinutes e.endTime = timeToMinutes "10:00" ∨
        timeToMinutes e.startTime = timeToMinutes "12:00") ∧
    sameDayCandidates touchingStore 0 none = touchingStore.events ∧
    checkOverlap touchingStore 0 "10:00" "12:00" none = ⟨false, none⟩ :=
  have h : ∀ e ∈ sameDayCandidates touchingStore 0 none,
      timeToMinutes e.endTime = timeToMinutes "10:00" ∨
        timeToMinutes e.startTime = timeToMinutes "12:00" := by decide
  ⟨h, by decide, checkOverlap_touching touchingStore 0 "10:00" "12:00" none h⟩

/-! ## Handlers -/

theorem find?_ownedBy_none {s : Store} {userId eventId : Nat}
    (h : ∀ e ∈ s.events, ¬ (e.id = eventId ∧ e.createdBy = userId)) :
    s.events.find? (ownedBy eventId userId) = none := by
  rw [List.find?_eq_none]
  intro e he
  have h2 := h e he
  simp only [ownedBy, Bool.and_eq_true, decide_eq_true_eq]
  exact h2

theorem deleteEvent_notFound {s : Store} {userId eventId : Nat}
    (h : ∀ e ∈ s.events, ¬ (e.id = eventId ∧ e.createdBy = userId)) :
    deleteEvent s userId eventId = (s, .error (.notFound eventId)) := by
  simp only [deleteEvent, findOneAndDelete, find?_ownedBy_none h]

theorem updateEvent_notFound {s : Store} {userId eventId : Nat} {body : Body}
    (h : ∀ e ∈ s.events, ¬ (e.id = eventId ∧ e.createdBy = userId))
    (ht : body.title ≠ some "") :
    updateEvent s userId eventId body = (s, .error (.notFound eventId)) := by
  simp only [updateEvent, if_neg ht, find?_ownedBy_none h]

/-- C7: owner-scoped mutation.  When no stored event has both the given id and
`createdBy` equal to the caller (the id does not exist, or the event belongs to
another user), delete and update (with a title other than the empty string) fail
with the same NotFoundError, which depends on the id only, and leave the store
unchanged; deleting again fails with NotFoundError again. -/
theorem owner_scoped_mutation_not_found (s : Store) (userId eventId : Nat) (body : Body)
    (h : ∀ e ∈ s.events, ¬ (e.id = eventId ∧ e.createdBy = userId))
    (ht : body.title ≠ some "") :
    deleteEvent s userId eventId = (s, .error (.notFound eventId)) ∧
    updateEvent s userId eventId body = (s, .error (.notFound eventId)) ∧
    deleteEvent (deleteEvent s userId eventId).1 userId eventId =
      (s, .error (.notFound eventId)) := by
  refine ⟨deleteEvent_notFound h, updateEvent_notFound h ht, ?_⟩
  rw [deleteEvent_notFound h]
  exact deleteEvent_notFound h

theorem owner_scoped_mutation_not_found_witness :
    deleteEvent touchingStore 2 0 = (touchingStore, .error (.notFound 0)) ∧
    deleteEvent touchingStore 1 5 = (touchingStore, .error (.notFound 5)) ∧
    updateEvent touchingStore 2 0 ⟨some "Mine now", none, none, none, none⟩ =
      (touchingStore, .error (.notFound 0)) :=
  have other := owner_scoped_mutation_not_found touchingStore 2 0
    ⟨some "Mine now", none, none, none, none⟩ (by decide) (by decide)
  have missing := owner_scoped_mutation_not_found touchingStore 1 5
    ⟨none, none, none, none, none⟩ (by decide) (by decide)
  ⟨other.1, missing.1, other.2.1⟩

theorem nonempty_of_validTimeField {v : String} (h : validTimeField v = true) :
    v.data.isEmpty = false := by
  unfold validTimeField checkRequiredString at h
  simp only [Bool.and_eq_true, Bool.not_eq_true'] at h
  exact h.1

/-- C5: a create request whose `startTime` and `endTime` are well-formed times
with end minutes at most start minutes is rejected and leaves the store
unchanged, whatever the store holds (overlapping events or not). -/
theorem createEvent_rejects_end_not_after_start (s : Store) (userId : Nat) (body : Body)
    (startTime endTime : String) (a b : Nat)
    (hst : body.startTime = some startTime) (hen : body.endTime = some endTime)
    (hvs : validTimeField startTime = true) (hve : validTimeField endTime = true)
    (ha : timeToMinutes startTime = some a) (hb : timeToMinutes endTime = some b)
    (hle : b ≤ a) :
    ∃ err, createEvent s userId body = (s, .error err) := by
  have hhook : preValidateHook startTime endTime = false := by
    simp [preValidateHook, nonempty_of_validTimeField hvs, nonempty_of_validTimeField hve,
      ha, hb, jsLe, hle]
  unfold createEvent
  split
  · exact ⟨_, rfl⟩
  · split
    · dsimp only
      split
      · split
        · exact ⟨_, rfl⟩
        · exact ⟨_, rfl⟩
      · simp only [createDocument, validateDocument, hst, hen, Option.getD_some, hhook,
          Bool.false_and]
        exact ⟨_, rfl⟩
    · exact ⟨_, rfl⟩

theorem createEvent_rejects_end_not_after_start_witness :
    (∃ err, createEvent touchingStore 3
        ⟨some "Backwards", none, some (.valid 0), some "15:00", some "14:00"⟩ =
      (touchingStore, .error err)) ∧
    createEvent touchingStore 3
        ⟨some "Backwards", none, some (.valid 0), some "15:00", some "14:00"⟩ =
      (touchingStore, .error .validation) ∧
    createEvent touchingStore 3
        ⟨some "Backwards", none, some (.valid 0), some "09:30", some "09:30"⟩ =
      (touchingStore, .error (.conflict ⟨0, "Morning", none, 0, "09:00", "10:00", 1⟩)) :=
  ⟨createEvent_rejects_end_not_after_start touchingStore 3
      ⟨some "Backwards", none, some (.valid 0), some "15:00", some "14:00"⟩ "15:00" "14:00"
      900 840 rfl rfl (by decide) (by decide) (by decide) (by decide) (by decide),
    by decide, by decide⟩

theorem find?_eq_some_of_unique {p : Event → Bool} {l : List Event} {E : Event}
    (hE : E ∈ l) (hp : p E = true) (hu : ∀ e ∈ l, p e = true → e = E) :
    l.find? p = some E := by
  induction l with
  | nil => simp at hE
  | cons e rest ih =>
    by_cases hpe : p e = true
    · have : e = E := hu e (by simp) hpe
      subst this
      simp [List.find?, hpe]
    · have hne : e ≠ E := fun h => hpe (h ▸ hp)
      have hE2 : E ∈ rest := by
        rcases List.mem_cons.mp hE with h | h
        · exact absurd h.symm hne
        · exact h
      simp only [Bool.not_eq_true] at hpe
      simp only [List.find?, hpe]
      exact ih hE2 (fun x hx => hu x (by simp [hx]))

theorem eq_of_id_eq {s : Store} (hu : UniqueIds s) {a b : Event}
    (ha : a ∈ s.events) (hb : b ∈ s.events) (h : a.id = b.id) : a = b :=
  List.inj_on_of_nodup_map hu ha hb h

theorem find?_ownedBy_of_mem {s : Store} (hu : UniqueIds s) {E : Event} (hE : E ∈ s.events) :
    s.events.find? (ownedBy E.id E.createdBy) = some E := by
  apply find?_eq_some_of_unique hE
  · simp [ownedBy]
  · intro e he hp
    simp only [ownedBy, Bool.and_eq_true, decide_eq_true_eq] at hp
    exact eq_of_id_eq hu he hE hp.1

theorem checkOverlap_conflict_mem {s : Store} {date : Int} {startTime endTime : String}
    {ex : Option Nat} {c : Event}
    (h : (checkOverlap s date startTime endTime ex).conflictingEvent = some c) :
    c ∈ sameDayCandidates s date ex ∧ proposedOverlaps startTime endTime c = true := by
  rw [checkOverlap_eq] at h
  unfold firstMatch at h
  cases hf : (sameDayCandidates s date ex).find? (proposedOverlaps startTime endTime) with
  | none => simp [hf] at h
  | some e =>
    simp only [hf, Option.some.injEq] at h
    subst h
    exact ⟨List.mem_of_find?_eq_some hf, List.find?_some hf⟩

/-- C6: an update never conflicts with the event being updated.  In a store with
unique ids, for an event `E` that no other event of its calendar day overlaps, an
update of `E` by its owner whose body leaves `date`, `startTime` and `endTime`
unchanged (absent, or equal to the stored values) is not rejected with
ConflictError; and `checkOverlap` called with `excludeEventId = E.id` never
returns an event with the id of `E` as the conflicting event. -/
theorem update_never_self_conflicts (s : Store) (E : Event) (body : Body)
    (hu : UniqueIds s) (hE : E ∈ s.events)
    (hno : ∀ e ∈ s.events, e.id ≠ E.id → calendarDay e.date = calendarDay E.date →
      overlaps E e = false)
    (hdate : body.date = none ∨ body.date = some (.valid E.date))
    (hst : body.startTime = none ∨ body.startTime = some E.startTime)
    (hen : body.endTime = none ∨ body.endTime = some E.endTime) :
    (∀ c, (updateEvent s E.createdBy E.id body).2 ≠ .error (.conflict c)) ∧
    (∀ date startTime endTime c,
      (checkOverlap s date startTime endTime (some E.id)).conflictingEvent = some c →
        c.id ≠ E.id) := by
  constructor
  · intro c
    have hcheck : checkOverlap s E.date E.startTime E.endTime (some E.id) = ⟨false, none⟩ := by
      rw [checkOverlap_eq]
      apply firstMatch_false_of_forall
      intro e he
      obtain ⟨h1, h2, h3⟩ := mem_sameDayCandidates.mp he
      exact hno e h1 (h3 E.id rfl) h2
    have hd : orElseDate body.date E.date = DateInput.valid E.date := by
      rcases hdate with h | h <;> simp [h, orElseDate, truthyDate]
    have hs : orElseString body.startTime E.startTime = E.startTime := by
      rcases hst with h | h <;> simp [h, orElseString, truthyString]
    have he : orElseString body.endTime E.endTime = E.endTime := by
      rcases hen with h | h <;> simp [h, orElseString, truthyString]
    unfold updateEvent
    split
    · simp
    · simp only [find?_ownedBy_of_mem hu hE, hd, newDate, hs, he, hcheck]
      unfold findOneAndUpdate
      by_cases hv : validateUpdate body = true
      · simp [hv]
      · simp [hv]
  · intro date startTime endTime c h
    exact (mem_sameDayCandidates.mp (checkOverlap_conflict_mem h).1).2.2 E.id rfl

theorem update_never_self_conflicts_witness :
    (∀ c, (updateEvent touchingStore 1 0 ⟨some "Renamed", none, none, some "09:00", none⟩).2 ≠
      .error (.conflict c)) ∧
    updateEvent touchingStore 1 0 ⟨some "Renamed", none, none, some "09:00", none⟩ =
      (⟨[⟨0, "Renamed", none, 0, "09:00", "10:00", 1⟩,
          ⟨1, "Lunch", none, 3600000, "12:00", "13:00", 2⟩], 2⟩,
        .ok (some ⟨0, "Renamed", none, 0, "09:00", "10:00", 1⟩)) :=
  ⟨(update_never_self_conflicts touchingStore ⟨0, "Morning", none, 0, "09:00", "10:00", 1⟩
      ⟨some "Renamed", none, none, some "09:00", none⟩ (by unfold UniqueIds; decide)
      (by decide) (by decide)
      (Or.inl rfl) (Or.inr rfl) (Or.inl rfl)).1, by decide⟩

/-- C4 (behaviour of the code): a partial update by the owner that supplies only
`endTime = "08:00"` for an event stored with `startTime = "09:00"` is accepted, and
the stored event then ends before it starts; the same times are refused on create. -/
theorem updateEvent_accepts_end_before_start :
    updateEvent singleEventStore 1 0 ⟨none, none, none, none, some "08:00"⟩ =
      (⟨[⟨0, "Standup", none, 0, "09:00", "08:00", 1⟩], 1⟩,
        .ok (some ⟨0, "Standup", none, 0, "09:00", "08:00", 1⟩)) ∧
    jsLe (timeToMinutes "08:00") (timeToMinutes "09:00") = true ∧
    createEvent Store.empty 1 ⟨some "Standup", none, some (.valid 0), some "09:00", some "08:00"⟩ =
      (Store.empty, .error .validation) := by
  decide

/-! ## The no-overlap invariant -/

theorem overlaps_comm (a b : Event) : overlaps a b = overlaps b a := by
  unfold overlaps
  exact Bool.and_comm _ _

theorem checkOverlap_false_forall {s : Store} {date : Int} {startTime endTime : String}
    {ex : Option Nat} (h : (checkOverlap s date startTime endTime ex).hasOverlap = false) :
    ∀ e ∈ sameDayCandidates s date ex, proposedOverlaps startTime endTime e = false := by
  rw [checkOverlap_eq] at h
  unfold firstMatch at h
  cases hf : (sameDayCandidates s date ex).find? (proposedOverlaps startTime endTime) with
  | some e => simp [hf] at h
  | none =>
    intro e he
    have := List.find?_eq_none.mp hf e he
    simpa using this

theorem createEvent_store_cases (s : Store) (userId : Nat) (body : Body) :
    (createEvent s userId body).1 = s ∨
      ∃ ev : Event, ev.id = s.nextId ∧ ValidTimes ev ∧
        (checkOverlap s ev.date ev.startTime ev.endTime none).hasOverlap = false ∧
        (createEvent s userId body).1 = ⟨s.events ++ [ev], s.nextId + 1⟩ := by
  unfold createEvent
  split
  · exact Or.inl rfl
  · split
    · rename_i date hdate
      dsimp only
      split
      · split
        · exact Or.inl rfl
        · exact Or.inl rfl
      · rename_i hov
        unfold createDocument
        split
        · rename_i hval
          refine Or.inr ⟨_, rfl, ?_, ?_, rfl⟩
          · simp only [validateDocument, Bool.and_eq_true] at hval
            exact ⟨hval.1.2, hval.2⟩
          · simpa using hov
        · exact Or.inl rfl
    · exact Or.inl rfl

theorem effective_date_eq {body : Body} (E : Event) (hz : body.date ≠ some (.number 0))
    (hv : validateUpdate body = true) :
    newDate (orElseDate body.date E.date) = some (applyUpdate E body).date := by
  obtain ⟨title, description, date, startTime, endTime⟩ := body
  simp only [validateUpdate, Bool.and_eq_true] at hv
  have hd := hv.1.1.2
  cases date with
  | none => simp [orElseDate, truthyDate, applyUpdate, newDate]
  | some d =>
    cases d with
    | empty => simp [newDate] at hd
    | invalid => simp [newDate] at hd
    | valid ms => simp [orElseDate, truthyDate, applyUpdate, newDate]
    | number ms =>
      have hms : ms ≠ 0 := by
        intro h0
        subst h0
        exact hz rfl
      simp [orElseDate, truthyDate, applyUpdate, newDate, hms]

theorem effective_startTime_eq {body : Body} (E : Event) (hv : validateUpdate body = true) :
    orElseString body.startTime E.startTime = (applyUpdate E body).startTime := by
  obtain ⟨title, description, date, startTime, endTime⟩ := body
  simp only [validateUpdate, Bool.and_eq_true] at hv
  have hd := hv.1.2
  cases startTime with
  | none => simp [orElseString, truthyString, applyUpdate]
  | some t =>
    simp only at hd
    simp [orElseString, truthyString, applyUpdate, nonempty_of_validTimeField hd]

theorem effective_endTime_eq {body : Body} (E : Event) (hv : validateUpdate body = true) :
    orElseString body.endTime E.endTime = (applyUpdate E body).endTime := by
  obtain ⟨title, description, date, startTime, endTime⟩ := body
  simp only [validateUpdate, Bool.and_eq_true] at hv
  have hd := hv.2
  cases endTime with
  | none => simp [orElseString, truthyString, applyUpdate]
  | some t =>
    simp only at hd
    simp [orElseString, truthyString, applyUpdate, nonempty_of_validTimeField hd]

theorem validTimes_applyUpdate {body : Body} {E : Event} (hv : validateUpdate body = true)
    (hE : ValidTimes E) : ValidTimes (applyUpdate E body) := by
  obtain ⟨title, description, date, startTime, endTime⟩ := body
  simp only [validateUpdate, Bool.and_eq_true] at hv
  have h1 := hv.1.2
  have h2 := hv.2
  constructor
  · cases startTime with
    | none => simpa [applyUpdate] using hE.1
    | some t => simpa [applyUpdate] using h1
  · cases endTime with
    | none => simpa [applyUpdate] using hE.2
    | some t => simpa [applyUpdate] using h2

theorem updateEvent_store_cases (s : Store) (userId eventId : Nat) (body : Body)
    (hz : body.date ≠ some (.number 0)) :
    (updateEvent s userId eventId body).1 = s ∨
      ∃ E : Event, s.events.find? (ownedBy eventId userId) = some E ∧
        validateUpdate body = true ∧
        (checkOverlap s (applyUpdate E body).date (applyUpdate E body).startTime
          (applyUpdate E body).endTime (some eventId)).hasOverlap = false ∧
        (updateEvent s userId eventId body).1 =
          ⟨replaceFirst (ownedBy eventId userId) (fun e => applyUpdate e body) s.events,
            s.nextId⟩ := by
  unfold updateEvent
  split
  · exact Or.inl rfl
  · cases hf : s.events.find? (ownedBy eventId userId) with
    | none => exact Or.inl rfl
    | some E =>
      by_cases hv : validateUpdate body = true
      · simp only [effective_date_eq E hz hv, effective_startTime_eq E hv,
          effective_endTime_eq E hv]
        split
        · split
          · exact Or.inl rfl
          · exact Or.inl rfl
        · rename_i hov
          refine Or.inr ⟨E, rfl, hv, by simpa using hov, ?_⟩
          simp [findOneAndUpdate, hv]
      · left
        dsimp only
        cases newDate (orElseDate body.date E.date) with
        | none => rfl
        | some date =>
          dsimp only
          split
          · split
            · rfl
            · rfl
          · simp [findOneAndUpdate, hv]

theorem deleteEvent_store_cases (s : Store) (userId eventId : Nat) :
    (deleteEvent s userId eventId).1 = s ∨
      (deleteEvent s userId eventId).1 = ⟨s.events.eraseP (ownedBy eventId userId), s.nextId⟩ := by
  unfold deleteEvent findOneAndDelete
  cases hf : s.events.find? (ownedBy eventId userId) with
  | none => exact Or.inl rfl
  | some e => exact Or.inr rfl

theorem applyUpdate_id (e : Event) (body : Body) : (applyUpdate e body).id = e.id := rfl

theorem replaceFirst_eq_map (eventId userId : Nat) (f : Event → Event) (l : List Event)
    (hn : (l.map Event.id).Nodup) :
    replaceFirst (ownedBy eventId userId) f l =
      l.map (fun e => if ownedBy eventId userId e then f e else e) := by
  induction l with
  | nil => rfl
  | cons e rest ih =>
    simp only [List.map_cons, List.nodup_cons] at hn
    by_cases hp : ownedBy eventId userId e = true
    · simp only [replaceFirst, hp, if_true, List.map_cons]
      congr 1
      have hrest : ∀ x ∈ rest, ownedBy eventId userId x = false := by
        intro x hx
        by_contra hc
        simp only [Bool.not_eq_false] at hc
        simp only [ownedBy, Bool.and_eq_true, decide_eq_true_eq] at hp hc
        exact hn.1 (List.mem_map.mpr ⟨x, hx, by rw [hc.1, hp.1]⟩)
      symm
      calc rest.map (fun e => if ownedBy eventId userId e then f e else e)
          = rest.map id := List.map_congr_left (fun x hx => by simp [hrest x hx])
        _ = rest := List.map_id rest
    · simp only [replaceFirst, hp, List.map_cons, ih hn.2]
      simp

theorem inv_empty : Inv Store.empty := by
  refine ⟨?_, ?_, ?_, ?_⟩
  · simp [UniqueIds, Store.empty]
  · simp [Store.empty]
  · simp [Store.empty]
  · intro a ha
    simp [Store.empty] at ha

theorem inv_create {s : Store} (h : Inv s) (userId : Nat) (body : Body) :
    Inv (createEvent s userId body).1 := by
  rcases createEvent_store_cases s userId body with hs | ⟨ev, hid, hvt, hov, hs⟩
  · rw [hs]
    exact h
  · rw [hs]
    obtain ⟨hu, hlt, hval, hno⟩ := h
    have hcand := checkOverlap_false_forall hov
    have hnew : ∀ b ∈ s.events, calendarDay b.date = calendarDay ev.date →
        overlaps ev b = false := by
      intro b hb hday
      exact hcand b (mem_sameDayCandidates.mpr ⟨hb, hday, by simp⟩)
    refine ⟨?_, ?_, ?_, ?_⟩
    · simp only [UniqueIds, List.map_append, List.map_cons, List.map_nil]
      rw [List.nodup_append]
      refine ⟨hu, by simp, ?_⟩
      intro x hx hx2
      simp only [List.mem_singleton] at hx2
      obtain ⟨e, he, hex⟩ := List.mem_map.mp hx
      have := hlt e he
      omega
    · intro e he
      simp only [List.mem_append, List.mem_singleton] at he
      rcases he with he | he
      · have := hlt e he
        simp only
        omega
      · subst he
        simp only
        omega
    · intro e he
      simp only [List.mem_append, List.mem_singleton] at he
      rcases he with he | he
      · exact hval e he
      · subst he
        exact hvt
    · intro a ha b hb hne hday
      simp only [List.mem_append, List.mem_singleton] at ha hb
      rcases ha with ha | ha <;> rcases hb with hb | hb
      · exact hno a ha b hb hne hday
      · subst hb
        rw [overlaps_comm]
        exact hnew a ha hday
      · subst ha
        exact hnew b hb hday.symm
      · subst ha
        subst hb
        exact absurd rfl hne

theorem inv_update {s : Store} (h : Inv s) (userId eventId : Nat) (body : Body)
    (hz : body.date ≠ some (.number 0)) :
    Inv (updateEvent s userId eventId body).1 := by
  rcases updateEvent_store_cases s userId eventId body hz with hs | ⟨E, hf, hv, hov, hs⟩
  · rw [hs]
    exact h
  · rw [hs]
    obtain ⟨hu, hlt, hval, hno⟩ := h
    have hEmem : E ∈ s.events := List.mem_of_find?_eq_some hf
    have hEp : ownedBy eventId userId E = true := List.find?_some hf
    have hEid : E.id = eventId := by
      simp only [ownedBy, Bool.and_eq_true, decide_eq_true_eq] at hEp
      exact hEp.1
    have hcand := checkOverlap_false_forall hov
    rw [replaceFirst_eq_map eventId userId _ s.events hu]
    have hmem : ∀ x, x ∈ s.events.map (fun e =>
        if ownedBy eventId userId e then applyUpdate e body else e) →
        (x = applyUpdate E body) ∨ (x ∈ s.events ∧ x.id ≠ eventId) := by
      intro x hx
      obtain ⟨e, he, hex⟩ := List.mem_map.mp hx
      by_cases hp : ownedBy eventId userId e = true
      · left
        simp only [hp, if_true] at hex
        have hp2 := hp
        simp only [ownedBy, Bool.and_eq_true, decide_eq_true_eq] at hp2
        have : e = E := eq_of_id_eq hu he hEmem (by rw [hp2.1, hEid])
        rw [← hex, this]
      · by_cases hid : e.id = eventId
        · left
          have : e = E := eq_of_id_eq hu he hEmem (by rw [hid, hEid])
          subst this
          exact absurd hEp hp
        · right
          simp only [hp] at hex
          simp only [Bool.false_eq_true, if_false] at hex
          subst hex
          exact ⟨he, hid⟩
    have hnew : ∀ b ∈ s.events, b.id ≠ eventId →
        calendarDay b.date = calendarDay (applyUpdate E body).date →
        overlaps (applyUpdate E body) b = false := by
      intro b hb hid hday
      exact hcand b (mem_sameDayCandidates.mpr ⟨hb, hday, by
        intro x hx
        simp only [Option.some.injEq] at hx
        subst hx
        exact hid⟩)
    refine ⟨?_, ?_, ?_, ?_⟩
    · simp only [UniqueIds, List.map_map]
      have : (Event.id ∘ fun e => if ownedBy eventId userId e then applyUpdate e body else e) =
          Event.id := by
        funext e
        simp only [Function.comp]
        split <;> rfl
      rw [this]
      exact hu
    · intro x hx
      rcases hmem x hx with hx | hx
      · subst hx
        exact hlt E hEmem
      · exact hlt x hx.1
    · intro x hx
      rcases hmem x hx with hx | hx
      · subst hx
        exact validTimes_applyUpdate hv (hval E hEmem)
      · exact hval x hx.1
    · intro a ha b hb hne hday
      rcases hmem a ha with ha | ha <;> rcases hmem b hb with hb | hb
      · subst ha
        subst hb
        exact absurd rfl hne
      · subst ha
        exact hnew b hb.1 hb.2 hday.symm
      · subst hb
        rw [overlaps_comm]
        exact hnew a ha.1 ha.2 hday
      · exact hno a ha.1 b hb.1 hne hday

theorem inv_delete {s : Store} (h : Inv s) (userId eventId : Nat) :
    Inv (deleteEvent s userId eventId).1 := by
  rcases deleteEvent_store_cases s userId eventId with hs | hs
  · rw [hs]
    exact h
  · rw [hs]
    obtain ⟨hu, hlt, hval, hno⟩ := h
    have hsub : (s.events.eraseP (ownedBy eventId userId)).Sublist s.events :=
      List.eraseP_sublist _
    have hmem : ∀ x, x ∈ s.events.eraseP (ownedBy eventId userId) → x ∈ s.events :=
      fun x hx => hsub.subset hx
    refine ⟨?_, ?_, ?_, ?_⟩
    · exact List.Nodup.sublist (hsub.map Event.id) hu
    · intro x hx
      exact hlt x (hmem x hx)
    · intro x hx
      exact hval x (hmem x hx)
    · intro a ha b hb hne hday
      exact hno a (hmem a ha) b (hmem b hb) hne hday

theorem inv_step {s : Store} (h : Inv s) (r : Request) (hr : ¬ ZeroDateUpdate r) :
    Inv (step s r) := by
  cases r with
  | create userId body => exact inv_create h userId body
  | update userId eventId body => exact inv_update h userId eventId body hr
  | delete userId eventId => exact inv_delete h userId eventId

theorem inv_run {s : Store} (h : Inv s) (reqs : List Request)
    (hr : ∀ r ∈ reqs, ¬ ZeroDateUpdate r) : Inv (run s reqs) := by
  induction reqs generalizing s with
  | nil => exact h
  | cons r rest ih =>
    exact ih (inv_step h r (hr r (by simp))) (fun x hx => hr x (by simp [hx]))

theorem timeToMinutes_of_valid {v : String} (h : validTimeField v = true) :
    ∃ n, timeToMinutes v = some n := by
  rw [validTimeField_eq, timeRegexTest_iff] at h
  obtain ⟨hour, minute, hdata, _, hd, _, _, md, _⟩ := h
  exact ⟨_, timeToMinutes_of_writes ⟨hour, minute, hdata, hd, rfl, md, rfl⟩⟩

/-- The no-overlap invariant along request sequences that contain no update
with the number `0` as `date`: in every store reached from the empty store by
such a sequence, two events with different ids on the same calendar day have
times that are minutes since midnight and do not overlap. -/
theorem no_overlap_of_no_zeroDateUpdate (reqs : List Request)
    (hr : ∀ r ∈ reqs, ¬ ZeroDateUpdate r) (a b : Event)
    (ha : a ∈ (run Store.empty reqs).events) (hb : b ∈ (run Store.empty reqs).events)
    (hne : a.id ≠ b.id) (hday : calendarDay a.date = calendarDay b.date) :
    ∃ sa ea sb eb : Nat,
      timeToMinutes a.startTime = some sa ∧ timeToMinutes a.endTime = some ea ∧
      timeToMinutes b.startTime = some sb ∧ timeToMinutes b.endTime = some eb ∧
      ¬ (sa < eb ∧ sb < ea) := by
  obtain ⟨_, _, hval, hno⟩ := inv_run inv_empty reqs hr
  obtain ⟨sa, hsa⟩ := timeToMinutes_of_valid (hval a ha).1
  obtain ⟨ea, hea⟩ := timeToMinutes_of_valid (hval a ha).2
  obtain ⟨sb, hsb⟩ := timeToMinutes_of_valid (hval b hb).1
  obtain ⟨eb, heb⟩ := timeToMinutes_of_valid (hval b hb).2
  refine ⟨sa, ea, sb, eb, hsa, hea, hsb, heb, ?_⟩
  have h := hno a ha b hb hne hday
  simp only [overlaps, hsa, hea, hsb, heb, jsLt, Bool.and_eq_false_iff,
    decide_eq_false_iff_not] at h
  omega

theorem no_overlap_of_no_zeroDateUpdate_example :
    (run Store.empty scenarioRequests).events =
      [⟨0, "Standup", none, 0, "09:00", "09:15", 7⟩, ⟨1, "Review", none, 0, "09:15", "09:30", 8⟩] ∧
    ∃ sa ea sb eb : Nat,
      timeToMinutes "09:00" = some sa ∧ timeToMinutes "09:15" = some ea ∧
      timeToMinutes "09:15" = some sb ∧ timeToMinutes "09:30" = some eb ∧
      ¬ (sa < eb ∧ sb < ea) :=
  ⟨by decide,
    no_overlap_of_no_zeroDateUpdate scenarioRequests (by decide)
      ⟨0, "Standup", none, 0, "09:00", "09:15", 7⟩
      ⟨1, "Review", none, 0, "09:15", "09:30", 8⟩ (by decide) (by decide) (by decide)
      (by decide)⟩

/-- C2 (behaviour of the code): the no-overlap invariant fails after a sequence
of requests executed one after another.  Two creates put 09:00 to 10:00 on day 0
and 09:30 to 10:30 on day 1; then the owner of the second event updates it with
the number `0` as `date`.  The update is accepted: `date || existingEvent.date`
reads the falsy `0` as absent, so the overlap check runs on day 1, while the
write stores the date `0`.  The store then holds two events with different ids
on calendar day 0 whose times overlap. -/
theorem update_zero_date_breaks_no_overlap :
    (run Store.empty (zeroDateRequests.take 2)).events =
      [⟨0, "Morning", none, 0, "09:00", "10:00", 1⟩,
        ⟨1, "Late morning", none, 86400000, "09:30", "10:30", 2⟩] ∧
    updateEvent (run Store.empty (zeroDateRequests.take 2)) 2 1
        ⟨none, none, some (.number 0), none, none⟩ =
      (run Store.empty zeroDateRequests,
        .ok (some ⟨1, "Late morning", none, 0, "09:30", "10:30", 2⟩)) ∧
    (run Store.empty zeroDateRequests).events =
      [⟨0, "Morning", none, 0, "09:00", "10:00", 1⟩,
        ⟨1, "Late morning", none, 0, "09:30", "10:30", 2⟩] ∧
    overlaps ⟨0, "Morning", none, 0, "09:00", "10:00", 1⟩
      ⟨1, "Late morning", none, 0, "09:30", "10:30", 2⟩ = true ∧
    ¬ NoOverlap (run Store.empty zeroDateRequests) := by
  have hev : (run Store.empty zeroDateRequests).events =
      [⟨0, "Morning", none, 0, "09:00", "10:00", 1⟩,
        ⟨1, "Late morning", none, 0, "09:30", "10:30", 2⟩] := by decide
  refine ⟨by decide, by decide, hev, by decide, ?_⟩
  intro h
  have h2 := h ⟨0, "Morning", none, 0, "09:00", "10:00", 1⟩ (by rw [hev]; simp)
    ⟨1, "Late morning", none, 0, "09:30", "10:30", 2⟩ (by rw [hev]; simp) (by decide) rfl
  exact absurd h2 (by decide)

/-! ## Listing order -/

theorem lexLe_total (x y : List Char) : lexLe x y = true ∨ lexLe y x = true := by
  induction x generalizing y with
  | nil => left; rfl
  | cons a as ih =>
    cases y with
    | nil => right; rfl
    | cons b bs =>
      simp only [lexLe, Bool.or_eq_true, Bool.and_eq_true, decide_eq_true_eq]
      rcases Nat.lt_trichotomy a.toNat b.toNat with h | h | h
      · exact Or.inl (Or.inl h)
      · rcases ih bs with h2 | h2
        · exact Or.inl (Or.inr ⟨h, h2⟩)
        · exact Or.inr (Or.inr ⟨h.symm, h2⟩)
      · exact Or.inr (Or.inl h)

theorem lexLe_trans {x y z : List Char} (h1 : lexLe x y = true) (h2 : lexLe y z = true) :
    lexLe x z = true := by
  induction x generalizing y z with
  | nil => rfl
  | cons a as ih =>
    cases y with
    | nil => simp [lexLe] at h1
    | cons b bs =>
      cases z with
      | nil => simp [lexLe] at h2
      | cons c cs =>
        simp only [lexLe, Bool.or_eq_true, Bool.and_eq_true, decide_eq_true_eq] at h1 h2 ⊢
        rcases h1 with h1 | ⟨h1, h1r⟩ <;> rcases h2 with h2 | ⟨h2, h2r⟩
        · exact Or.inl (by omega)
        · exact Or.inl (by omega)
        · exact Or.inl (by omega)
        · exact Or.inr ⟨by omega, ih h1r h2r⟩

theorem sortKeyLe_total (a b : Event) : sortKeyLe a b ∨ sortKeyLe b a := by
  unfold sortKeyLe
  rcases lt_trichotomy a.date b.date with h | h | h
  · exact Or.inl (Or.inl h)
  · rcases lexLe_total a.startTime.data b.startTime.data with h2 | h2
    · exact Or.inl (Or.inr ⟨h, h2⟩)
    · exact Or.inr (Or.inr ⟨h.symm, h2⟩)
  · exact Or.inr (Or.inl h)

theorem sortKeyLe_trans (a b c : Event) (h1 : sortKeyLe a b) (h2 : sortKeyLe b c) :
    sortKeyLe a c := by
  unfold sortKeyLe at h1 h2 ⊢
  rcases h1 with h1 | ⟨h1, h1r⟩ <;> rcases h2 with h2 | ⟨h2, h2r⟩
  · exact Or.inl (by omega)
  · exact Or.inl (by omega)
  · exact Or.inl (by omega)
  · exact Or.inr ⟨by omega, lexLe_trans h1r h2r⟩

theorem padded_shape {e : Event} (h : PaddedStart e) :
    ∃ h1 h2 m1 m2 : Char, e.startTime.data = [h1, h2, ':', m1, m2] ∧
      48 ≤ h1.toNat ∧ h1.toNat ≤ 57 ∧ 48 ≤ h2.toNat ∧ h2.toNat ≤ 57 ∧
      48 ≤ m1.toNat ∧ m1.toNat ≤ 53 ∧ 48 ≤ m2.toNat ∧ m2.toNat ≤ 57 ∧
      timeToMinutes e.startTime =
        some (((h1.toNat - 48) * 10 + (h2.toNat - 48)) * 60 +
          ((m1.toNat - 48) * 10 + (m2.toNat - 48))) := by
  obtain ⟨hv, hlen⟩ := h
  rw [validTimeField_eq, timeRegexTest_iff, isTimeFormat_iff] at hv
  rcases hv with ⟨h, m1, m2, hdata, _⟩ | ⟨h1, h2, m1, m2, hdata, hh, hf1, hf2, hg1, hg2⟩
  · rw [hdata] at hlen
    simp at hlen
  · have hd1 : 48 ≤ h1.toNat ∧ h1.toNat ≤ 57 ∧ 48 ≤ h2.toNat ∧ h2.toNat ≤ 57 := by omega
    refine ⟨h1, h2, m1, m2, hdata, hd1.1, hd1.2.1, hd1.2.2.1, hd1.2.2.2, hf1, hf2, hg1,
      hg2, ?_⟩
    apply timeToMinutes_of_writes
    refine ⟨[h1, h2], [m1, m2], by simpa using hdata, ?_, ?_, ?_, ?_⟩
    · intro c hc
      simp only [List.mem_cons, List.mem_singleton, List.not_mem_nil, or_false] at hc
      rcases hc with rfl | rfl
      · exact (isDigitChar_iff _).mpr ⟨hd1.1, hd1.2.1⟩
      · exact (isDigitChar_iff _).mpr ⟨hd1.2.2.1, hd1.2.2.2⟩
    · simp [decimalValue, digitVal]
    · intro c hc
      simp only [List.mem_cons, List.mem_singleton, List.not_mem_nil, or_false] at hc
      rcases hc with rfl | rfl
      · exact (isDigitChar_iff _).mpr ⟨hf1, by omega⟩
      · exact (isDigitChar_iff _).mpr ⟨hg1, hg2⟩
    · simp [decimalValue, digitVal]

theorem chronLe_of_sortKeyLe {a b : Event} (ha : PaddedStart a) (hb : PaddedStart b)
    (h : sortKeyLe a b) : chronLe a b := by
  unfold sortKeyLe at h
  unfold chronLe
  rcases h with h | ⟨h, hl⟩
  · exact Or.inl h
  · right
    refine ⟨h, ?_⟩
    obtain ⟨a1, a2, a3, a4, had, p1, p2, p3, p4, p5, p6, p7, p8, hta⟩ := padded_shape ha
    obtain ⟨b1, b2, b3, b4, hbd, q1, q2, q3, q4, q5, q6, q7, q8, htb⟩ := padded_shape hb
    rw [had, hbd] at hl
    simp only [lexLe, Bool.or_eq_true, Bool.and_eq_true, decide_eq_true_eq, lt_self_iff_false,
      false_or, true_and, and_true] at hl
    rw [hta, htb]
    simp only [jsLe, decide_eq_true_eq]
    omega

theorem chronological_sort {l : List Event} (h : ∀ e ∈ l, PaddedStart e) :
    Chronological (l.insertionSort sortKeyLe) := by
  haveI : IsTotal Event sortKeyLe := ⟨sortKeyLe_total⟩
  haveI : IsTrans Event sortKeyLe := ⟨sortKeyLe_trans⟩
  have hs : (l.insertionSort sortKeyLe).Pairwise sortKeyLe := List.sorted_insertionSort sortKeyLe l
  have hp := List.perm_insertionSort sortKeyLe l
  unfold Chronological
  apply List.Pairwise.imp_of_mem _ hs
  intro a b ha hb hab
  exact chronLe_of_sortKeyLe (h a (hp.subset ha)) (h b (hp.subset hb)) hab

/-- C8 as stated fails: with the accepted start times "9:00" and "10:00" on one
date, the list puts 10:00 (600 minutes) before 9:00 (540 minutes). -/
theorem getEventsByDate_not_chronological :
    (∀ e ∈ unpaddedStore.events, validTimeField e.startTime = true) ∧
    getEventsByDate unpaddedStore none =
      .ok [⟨1, "Late", none, 0, "10:00", "11:00", 1⟩, ⟨0, "Early", none, 0, "9:00", "9:30", 1⟩] ∧
    ¬ Chronological
      [⟨1, "Late", none, 0, "10:00", "11:00", 1⟩, ⟨0, "Early", none, 0, "9:00", "9:30", 1⟩] := by
  refine ⟨by decide, by decide, ?_⟩
  unfold Chronological chronLe
  simp only [List.pairwise_cons, List.mem_singleton, forall_eq, List.not_mem_nil,
    List.Pairwise.nil, and_true, lt_self_iff_false, false_or, true_and, IsEmpty.forall_iff,
    implies_true]
  decide

/-- C8 (amended): when every stored start time is an accepted time written with a
two-digit hour, and the `date` filter is absent, empty or a valid date, the list
returned by `getEventsByDate` is ordered by date ascending and, for equal dates,
by start minutes ascending. -/
theorem getEventsByDate_chronological_of_padded (s : Store) (date : Option DateInput)
    (hq : date ≠ some .invalid) (h : ∀ e ∈ s.events, PaddedStart e) :
    ∃ l, getEventsByDate s date = .ok l ∧ Chronological l := by
  unfold getEventsByDate
  split
  · split
    · refine ⟨_, rfl, chronological_sort ?_⟩
      intro e he
      unfold findSameDay at he
      exact h e (List.mem_filter.mp he).1
    · rename_i htr _ hnv
      cases date with
      | none => simp [truthyDate] at htr
      | some d =>
        cases d with
        | empty => simp [truthyDate] at htr
        | invalid => exact absurd rfl hq
        | valid ms => simp [newDate] at hnv
        | number ms => simp [newDate] at hnv
  · exact ⟨_, rfl, chronological_sort h⟩

theorem getEventsByDate_chronological_of_padded_witness :
    (∀ e ∈ touchingStore.events, PaddedStart e) ∧
    ∃ l, getEventsByDate touchingStore (some (.valid 5)) = .ok l ∧ Chronological l :=
  have h : ∀ e ∈ touchingStore.events, PaddedStart e := by
    unfold PaddedStart
    decide
  ⟨h, getEventsByDate_chronological_of_padded touchingStore (some (.valid 5)) (by decide) h⟩

end EventScheduler
